import Mathlib

/-!
Verification development for the shred-explorer ingestion pipeline.

The definitions below are a shallow embedding of the Rust sources:
  * `packages/etl/src/models.rs`              (Shred, Block, update_with_shred)
  * `packages/etl/src/websocket/block_manager.rs` (BlockManager::add_shred, persist_block)
  * `packages/etl/src/db/mod.rs`              (persist_block_with_shreds)
  * `packages/etl/src/websocket/connection.rs` (normalize_websocket_url)
  * `packages/indexer/src/models/block_queue.rs` (BlockQueue)
  * `packages/indexer/src/main.rs`            (start-block computation)
  * `packages/indexer/src/sync/fetcher.rs`    (create_batch_ranges, fetch_batch,
                                               fetch_blocks_range)

Modelling conventions:
  * `chrono::DateTime<Utc>` values are modelled as `Int` millisecond timestamps;
    `(a - b).num_milliseconds()` becomes integer subtraction.
  * `i64`/`i32` counters are modelled as `Int` (no observed overflow in any claim).
  * `f64` averages are modelled as `ℚ`; the only facts proved about them are
    signs and definedness, which agree with IEEE division of exact inputs.
  * Transaction and state-change payloads are opaque to every claim (only their
    lengths are observed by the code under verification), so they are modelled
    as `List Unit`; `HashMap<String, StateChange>` likewise only contributes its
    length via `.len()`.
  * `HashMap<i64, Block>` is modelled as an association list `List (Int × Block)`;
    `get` / `entry().or_insert` / `remove` become `lookupBlock` / `setBlock` /
    `removeBlock`.
-/

namespace ShredExplorer

/-- A streamed block fragment, from `models.rs` (`struct Shred`).  Payloads are
abstracted to `List Unit` because the code manipulates only their lengths. -/
structure Shred where
  block_number : Int
  shred_idx : Int
  transactions : List Unit
  state_changes : List Unit
  timestamp : Option Int
  shred_interval : Option Int
deriving DecidableEq, Repr

/-- Shred-side block aggregate, from `models.rs` (`struct Block`). -/
structure Block where
  number : Int
  timestamp : Int
  transaction_count : Int
  shred_count : Int
  state_change_count : Int
  first_shred_id : Option Int
  last_shred_id : Option Int
  block_time : Option Int
  first_shred_timestamp : Option Int
  last_shred_timestamp : Option Int
  avg_tps : Option ℚ
  avg_shred_interval : Option ℚ
  buffered_shreds : List Shred
  is_persisted : Bool
  last_update_time : Int
deriving DecidableEq, Repr

/-- Embeds `Block::new(number, timestamp)` from `models.rs`. -/
def Block.new (number : Int) (timestamp : Int) : Block where
  number := number
  timestamp := timestamp
  transaction_count := 0
  shred_count := 0
  state_change_count := 0
  first_shred_id := none
  last_shred_id := none
  block_time := none
  first_shred_timestamp := none
  last_shred_timestamp := none
  avg_tps := none
  avg_shred_interval := none
  buffered_shreds := []
  is_persisted := false
  last_update_time := timestamp

/-- Embeds `Block::update_with_shred(shred_id, shred, timestamp)` from `models.rs`.
`shredId` is the value the callers pass (`message_handler.rs` passes
`shred.shred_idx`); `timestamp` is the arrival timestamp argument and `now`
stands for the `chrono::Utc::now()` read used for `last_update_time`.  Each
field is computed exactly as the sequential Rust mutations leave it. -/
def Block.updateWithShred (b : Block) (shredId : Int) (s : Shred) (timestamp : Int)
    (now : Int) : Block :=
  let tc := b.transaction_count + (s.transactions.length : Int)
  let sc := b.shred_count + 1
  let scc := b.state_change_count + (s.state_changes.length : Int)
  let firstHit : Bool :=
    match b.first_shred_id with
    | none => true
    | some v => decide (shredId < v)
  let fid := if firstHit then some shredId else b.first_shred_id
  let fts := if firstHit then some timestamp else b.first_shred_timestamp
  let lastHit : Bool :=
    match b.last_shred_id with
    | none => true
    | some v => decide (v < shredId)
  let lid := if lastHit then some shredId else b.last_shred_id
  let lts := if lastHit then some timestamp else b.last_shred_timestamp
  let bt : Option Int :=
    match fts, lts with
    | some f, some l => some (l - f)
    | _, _ => b.block_time
  let tps : Option ℚ :=
    match fts, lts with
    | some f, some l =>
        if 0 < l - f ∧ 0 < tc then some ((tc : ℚ) / (((l - f : Int) : ℚ) / 1000))
        else b.avg_tps
    | _, _ => b.avg_tps
  let asi : Option ℚ :=
    match fts, lts with
    | some f, some l =>
        if 1 < sc then some (((l - f : Int) : ℚ) / ((sc - 1 : Int) : ℚ))
        else b.avg_shred_interval
    | _, _ => b.avg_shred_interval
  { b with
    transaction_count := tc
    shred_count := sc
    state_change_count := scc
    first_shred_id := fid
    first_shred_timestamp := fts
    last_shred_id := lid
    last_shred_timestamp := lts
    block_time := bt
    avg_tps := tps
    avg_shred_interval := asi
    buffered_shreds := b.buffered_shreds ++ [s]
    last_update_time := now
    is_persisted := false }

/-- Embeds `Block::buffered_count` from `models.rs`. -/
def Block.bufferedCount (b : Block) : Nat :=
  b.buffered_shreds.length

/-- Embeds `Block::mark_persisted` from `models.rs`: set the flag and clear the buffer. -/
def Block.markPersisted (b : Block) : Block :=
  { b with is_persisted := true, buffered_shreds := [] }

/-! ## The manager's `HashMap<i64, Block>` as an association list -/

/-- Embeds `HashMap::get(&k)` — first binding for `k`, if any. -/
def lookupBlock : List (Int × Block) → Int → Option Block
  | [], _ => none
  | kv :: rest, k => if kv.1 == k then some kv.2 else lookupBlock rest k

/-- Embeds `HashMap::insert(k, b)` / `entry(k).or_insert(..)` followed by in-place
mutation: replace the binding for `k`, or append a new one. -/
def setBlock : List (Int × Block) → Int → Block → List (Int × Block)
  | [], k, b => [(k, b)]
  | kv :: rest, k, b => if kv.1 == k then (k, b) :: rest else kv :: setBlock rest k b

/-- Embeds `HashMap::remove(&k)`. -/
def removeBlock (m : List (Int × Block)) (k : Int) : List (Int × Block) :=
  m.filter (fun kv => !(kv.1 == k))

/-- The mutable state of `BlockManager` (`block_manager.rs`): the active-blocks
map and the two process-wide counters. -/
structure ManagerState where
  active_blocks : List (Int × Block)
  duplicate_count : Nat
  blocks_dropped_count : Nat
deriving DecidableEq, Repr

/-- The manager's starting state (`BlockManager::new`). -/
def ManagerState.initial : ManagerState :=
  { active_blocks := [], duplicate_count := 0, blocks_dropped_count := 0 }

namespace BlockManager

/-- Embeds `BlockManager::add_shred(shred, shred_id, timestamp)` from
`block_manager.rs` lines 105-219.  Returns the new state together with
`blocks_to_persist` (the value the method returns).  `now` stands for the
`chrono::Utc::now()` reads made during the call. -/
def addShred (st : ManagerState) (s : Shred) (shredId : Int) (timestamp : Int)
    (now : Int) : ManagerState × List Block :=
  let n := s.block_number
  -- Step 1: duplicate check against the buffered shreds of the tracked block
  let isDup : Bool :=
    match lookupBlock st.active_blocks n with
    | some existing => existing.buffered_shreds.any (fun sh => sh.shred_idx == s.shred_idx)
    | none => false
  if isDup then
    -- Step 2: drop the tracked block and restart it from this shred
    let shredTs := s.timestamp.getD now
    let newBlock := (Block.new n shredTs).updateWithShred shredId s timestamp now
    ({ active_blocks := setBlock (removeBlock st.active_blocks n) n newBlock
       duplicate_count := st.duplicate_count + 1
       blocks_dropped_count := st.blocks_dropped_count + 1 },
     [])
  else
    -- Step 3: boundary detection, then upsert the current block
    let shredTs := s.timestamp.getD now
    let blocksToPersist :=
      (st.active_blocks.filter
        (fun kv => decide (kv.1 < n) && !kv.2.is_persisted)).map Prod.snd
    let cur := (lookupBlock st.active_blocks n).getD (Block.new n shredTs)
    let cur' := cur.updateWithShred shredId s timestamp now
    ({ st with active_blocks := setBlock st.active_blocks n cur' }, blocksToPersist)

/-- The effect of `BlockManager::persist_block` (`block_manager.rs` lines
241-278) on the tracked map: mark the tracked copy `is_persisted = true` before
sending, and reset the flag if the channel send fails (`sendOk = false`). -/
def persistBlockMark (st : ManagerState) (blockNumber : Int) (sendOk : Bool) :
    ManagerState :=
  let m1 :=
    match lookupBlock st.active_blocks blockNumber with
    | some b => setBlock st.active_blocks blockNumber { b with is_persisted := true }
    | none => st.active_blocks
  if sendOk then { st with active_blocks := m1 }
  else
    let m2 :=
      match lookupBlock m1 blockNumber with
      | some b => setBlock m1 blockNumber { b with is_persisted := false }
      | none => m1
    { st with active_blocks := m2 }

end BlockManager

/-- One call to `add_shred` as driven by `message_handler.rs`: the handler
passes `shred_id = shred.shred_idx` and the arrival time as `timestamp`. -/
structure ShredArrival where
  shred : Shred
  shredId : Int
  timestamp : Int
  now : Int
deriving DecidableEq, Repr

/-- Run a sequence of `add_shred` calls from the manager's initial state,
discarding the returned to-persist lists (they are handed to the persistence
worker, which never touches the map). -/
def runManager (ops : List ShredArrival) : ManagerState :=
  ops.foldl
    (fun st op => (BlockManager.addShred st op.shred op.shredId op.timestamp op.now).1)
    ManagerState.initial

/-! ## Persistence of a block with its buffered shreds (`db/mod.rs`) -/

/-- How a call to `persist_block_with_shreds` ends: normal return `Ok(())`,
error return `Err(..)`, or `std::process::exit(code)`. -/
inductive PersistOutcome where
  | ok
  | err
  | exitProcess (code : Nat)
deriving DecidableEq, Repr

/-- The `shreds[min_idx_pos].shred_idx` read used by the position scan; the
scan only ever reads positions below the length, where the default is inert. -/
def shredIdxAt (shreds : List Shred) (i : Nat) : Int :=
  ((shreds.get? i).map Shred.shred_idx).getD 0

/-- The loop in `persist_block_with_shreds` (`db/mod.rs` lines 294-305) that
finds the buffer positions holding the minimum and maximum `shred_idx`. -/
def minMaxIdxPos (shreds : List Shred) : Nat × Nat :=
  shreds.enum.foldl
    (fun acc p =>
      let minPos := if p.1 = 0 || decide (p.2.shred_idx < shredIdxAt shreds acc.1)
        then p.1 else acc.1
      let maxPos := if p.1 = 0 || decide (shredIdxAt shreds acc.2 < p.2.shred_idx)
        then p.1 else acc.2
      (minPos, maxPos))
    (0, 0)

/-- Embeds `persist_block_with_shreds(pool, block)` from `db/mod.rs` lines 246-332.
The two database writes are oracles: `shredsBatchOk` is whether
`save_shreds_batch` succeeds (it is a single transaction, so on failure nothing
is inserted) and `headerOk` is whether the subsequent `save_block` succeeds.
`shredIds` models the row ids the store returns, one per buffered shred. -/
def persist_block_with_shreds (shredsBatchOk : Bool) (headerOk : Bool)
    (shredIds : List Int) (block : Block) : PersistOutcome × Block :=
  if block.buffered_shreds.length = 0 then
    -- no shreds: just write the header row
    if headerOk then (.ok, block.markPersisted) else (.err, block)
  else if !shredsBatchOk then
    -- `save_shreds_batch` failed: the code terminates the process here
    (.exitProcess 1, block)
  else
    -- map buffer positions of the extreme `shred_idx` values to store ids
    let block :=
      if shredIds.isEmpty then block
      else
        let pos := minMaxIdxPos block.buffered_shreds
        { block with
          first_shred_id := shredIds.get? pos.1
          last_shred_id := shredIds.get? pos.2 }
    -- header write after the shreds were committed
    if headerOk then (.ok, block.markPersisted) else (.err, block)

/-! ## The indexer's bounded block queue (`models/block_queue.rs`) -/

/-- Embeds `BlockQueue`: a `SegQueue` (here: the element list, head first) plus the
counting semaphore's available permits and the configured bound. -/
structure BlockQueue (α : Type) where
  elems : List α
  permits : Nat
  max_size : Nat
deriving DecidableEq, Repr

namespace BlockQueue

/-- Embeds `BlockQueue::with_capacity(max_size)`. -/
def withCapacity (α : Type) (n : Nat) : BlockQueue α :=
  { elems := [], permits := n, max_size := n }

/-- Embeds `BlockQueue::len()`: `max_size - semaphore.available_permits()`. -/
def len (q : BlockQueue α) : Nat :=
  q.max_size - q.permits

/-- Embeds `BlockQueue::capacity()`. -/
def capacity (q : BlockQueue α) : Nat :=
  q.max_size

/-- Embeds `BlockQueue::try_push`: take a permit if one is available and append,
otherwise return `false` without changing anything. -/
def tryPush (q : BlockQueue α) (b : α) : BlockQueue α × Bool :=
  if 0 < q.permits then
    ({ q with elems := q.elems ++ [b], permits := q.permits - 1 }, true)
  else (q, false)

/-- Embeds `BlockQueue::try_pop`: pop the head if any and return one permit. -/
def tryPop (q : BlockQueue α) : BlockQueue α × Option α :=
  match q.elems with
  | [] => (q, none)
  | x :: rest => ({ q with elems := rest, permits := q.permits + 1 }, some x)

/-- Embeds `BlockQueue::push` observed at its completion point: the blocking acquire
completes only once a permit is available, so in a producer-only trace a push
against a full queue stays suspended (modelled as `none`). -/
def pushBlocking (q : BlockQueue α) (b : α) : Option (BlockQueue α) :=
  if 0 < q.permits then
    some { q with elems := q.elems ++ [b], permits := q.permits - 1 }
  else none

end BlockQueue

/-- One queue operation of the `push` / `try_push` / `try_pop` interface. -/
inductive QueueOp (α : Type) where
  | tryPushOp (b : α)
  | tryPopOp
  | pushOp (b : α)
deriving DecidableEq, Repr

/-- Apply one operation; a blocking `push` that would suspend leaves the state
unchanged (it has not completed). -/
def queueStep (q : BlockQueue α) : QueueOp α → BlockQueue α
  | .tryPushOp b => (q.tryPush b).1
  | .tryPopOp => (q.tryPop).1
  | .pushOp b =>
      match q.pushBlocking b with
      | some q' => q'
      | none => q

/-- Run a sequence of queue operations from a fresh queue of capacity `n`. -/
def runQueue (α : Type) (n : Nat) (ops : List (QueueOp α)) : BlockQueue α :=
  ops.foldl queueStep (BlockQueue.withCapacity α n)

/-! ## Indexer start-block computation (`main.rs` lines 52-103) -/

/-- The `latest_synced_block` computation in the indexer's `main`: `u64`
arithmetic is modelled with `Nat` (the `tip - blocks_from_tip` subtraction is
guarded by `tip > blocks_from_tip` exactly as in the source). -/
def computeStartBlock (currentChainTip : Nat) (startBlockCfg : Nat)
    (blocksFromTip : Option Nat) (latestInStore : Option Nat) : Nat :=
  match latestInStore with
  | some blockNumber =>
    match blocksFromTip with
    | some bft =>
      let calculatedStart := if bft < currentChainTip then currentChainTip - bft else 0
      max (max calculatedStart startBlockCfg) blockNumber
    | none => blockNumber
  | none =>
    match blocksFromTip with
    | some bft =>
      let calculatedStart := if bft < currentChainTip then currentChainTip - bft else 0
      max calculatedStart startBlockCfg
    | none => startBlockCfg

/-! ## The block fetcher (`sync/fetcher.rs`) -/

/-- Indexer-side block model; the claims observe only the `number` field that
`convert_block` copies from the RPC header. -/
structure IndexerBlock where
  number : Nat
deriving DecidableEq, Repr

/-- RPC header as far as `convert_block` can fail on it: `eth_getBlockByNumber`
may return a header whose `number` field is absent (then conversion fails with
`Parse`); all other header fields are defaulted by the conversion and are
irrelevant to the claims. -/
structure EthBlock where
  number : Option Nat
deriving DecidableEq, Repr

/-- Outcome of one `get_block` request inside the batched call, after the
retry wrapper is exhausted: a header, a `null` response (`BlockNotFound`), or a
transport failure (the whole `try_join_all` batch errors). -/
inductive RpcReply where
  | okReply (b : EthBlock)
  | nullReply
  | failReply
deriving DecidableEq, Repr

/-- Embeds `BlockFetcher::create_batch_ranges` (`fetcher.rs` lines 243-256), with a
fuel argument standing for the loop's termination: the fuel chosen by
`create_batch_ranges` below is sufficient whenever `rpc_batch_size ≥ 1`, in
which case the recursion is exactly the source's `while` loop. -/
def createBatchRangesAux (R : Nat) : Nat → Nat → Nat → Nat → List (Nat × Nat × Nat)
  | 0, _, _, _ => []
  | fuel + 1, batchIdx, current, endBlock =>
    if current ≤ endBlock then
      let batchEnd := min (current + R - 1) endBlock
      (batchIdx, current, batchEnd) ::
        createBatchRangesAux R fuel (batchIdx + 1) (batchEnd + 1) endBlock
    else []

/-- Embeds `create_batch_ranges(start_block, end_block)` with batch width `R`. -/
def create_batch_ranges (R startBlock endBlock : Nat) : List (Nat × Nat × Nat) :=
  createBatchRangesAux R (endBlock + 1 - startBlock) 0 startBlock endBlock

/-- Embeds `BlockFetcher::fetch_blocks_batch` (`fetcher.rs` lines 354-398): the batch
errors if any single request fails in transport or returns `null`; otherwise it
yields the headers in request order. -/
def fetchBlocksBatch (rpc : Nat → RpcReply) (nums : List Nat) :
    Option (List EthBlock) :=
  if nums.all (fun n => match rpc n with | .okReply _ => true | _ => false)
  then some (nums.filterMap (fun n => match rpc n with | .okReply eb => some eb | _ => none))
  else none

/-- Embeds `convert_block` restricted to the observable `number` field: fails with
`Parse` when the header has no number. -/
def convert_block (eb : EthBlock) : Option IndexerBlock :=
  eb.number.map (fun n => { number := n })

/-- The body of `fetch_batch` for one fetched chunk `[a, b]`: on batch error
the worker logs an error covering every block of the chunk; on success each
header is converted and pushed (the push loop of `fetcher.rs` lines 282-313
always lands the block in the queue once a permit frees up, so pushes are
recorded as a list), and a conversion failure is logged as an error for the
requested block at that position. -/
def processChunk (rpc : Nat → RpcReply) (a b : Nat) :
    List IndexerBlock × List Nat :=
  let nums := List.range' a (b + 1 - a)
  match fetchBlocksBatch rpc nums with
  | none => ([], nums)
  | some ebs =>
    let pushed := ebs.filterMap convert_block
    let errored := (nums.zip ebs).filterMap
      (fun p => if p.2.number.isNone then some p.1 else none)
    (pushed, errored)

/-- Embeds `fetch_batch(start_block, end_block)` (`fetcher.rs` lines 259-325): the
inner `while` loop re-chunks `[s, e]` by `rpc_batch_size` and processes each
chunk in order; the pushed blocks and logged per-block errors accumulate. -/
def fetchBatchRun (rpc : Nat → RpcReply) (R s e : Nat) :
    List IndexerBlock × List Nat :=
  ((create_batch_ranges R s e).flatMap (fun t => (processChunk rpc t.2.1 t.2.2).1),
   (create_batch_ranges R s e).flatMap (fun t => (processChunk rpc t.2.1 t.2.2).2))

/-- Embeds `fetch_blocks_range(start_block, end_block)` (`fetcher.rs` lines 97-240):
the worker pool drains the work list of batch ranges, calling `fetch_batch` on
each exactly once; the interleaving does not affect which blocks get pushed or
logged, so the runs are accumulated in work-list order. -/
def fetch_blocks_range (rpc : Nat → RpcReply) (R s e : Nat) :
    List IndexerBlock × List Nat :=
  ((create_batch_ranges R s e).flatMap (fun t => (fetchBatchRun rpc R t.2.1 t.2.2).1),
   (create_batch_ranges R s e).flatMap (fun t => (fetchBatchRun rpc R t.2.1 t.2.2).2))

/-! ## WebSocket URL normalization (`websocket/connection.rs` lines 8-32) -/

/-- Embeds `str::trim` on the character list. -/
def trimChars (s : List Char) : List Char :=
  ((s.dropWhile Char.isWhitespace).reverse.dropWhile Char.isWhitespace).reverse

/-- Embeds `str::ends_with(suffixPat)`. -/
def listEndsWith (suffixPat s : List Char) : Bool :=
  suffixPat.reverse.isPrefixOf s.reverse

/-- Embeds `str::contains(pat)` — substring occurrence anywhere in the string. -/
def listContainsSub (pat : List Char) : List Char → Bool
  | [] => pat.isEmpty
  | c :: rest => pat.isPrefixOf (c :: rest) || listContainsSub pat rest

/-- The literal `"ws://"`. -/
def schemeWsChars : List Char :=
  String.toList "ws://"

/-- The literal `"wss://"`. -/
def schemeWssChars : List Char :=
  String.toList "wss://"

/-- The literal `"/ws"`. -/
def pathWsChars : List Char :=
  String.toList "/ws"

/-- The literal `"/"`. -/
def slashChars : List Char :=
  String.toList "/"

/-- The literal `"ws"`. -/
def wsChars : List Char :=
  String.toList "ws"

/-- The literal `"/ws/"`. -/
def wsSlashChars : List Char :=
  String.toList "/ws/"

/-- Embeds `normalize_websocket_url` up to the final `Url::parse` (the parse of the
built string is an external library call and the claim is about the string
construction): trim, default the scheme to `wss://`, then fix up the path. -/
def normalize_websocket_url (inputUrl : List Char) : List Char :=
  let s := trimChars inputUrl
  let s :=
    if !(schemeWsChars.isPrefixOf s) && !(schemeWssChars.isPrefixOf s)
    then schemeWssChars ++ s else s
  if !(listContainsSub pathWsChars s) && !(listEndsWith slashChars s) then
    s ++ pathWsChars
  else if listEndsWith slashChars s && !(listEndsWith wsSlashChars s) then
    s ++ wsChars
  else s

/-- The spec sentence for C9, taken at its word: scheme defaulted the same way;
`/ws` appended when neither a `/ws` occurrence nor a trailing `/` is present;
`ws` appended whenever the string ends in `/` (no exception). -/
def spec_normalize_websocket_url (inputUrl : List Char) : List Char :=
  let s := trimChars inputUrl
  let s :=
    if !(schemeWsChars.isPrefixOf s) && !(schemeWssChars.isPrefixOf s)
    then schemeWssChars ++ s else s
  if !(listContainsSub pathWsChars s) && !(listEndsWith slashChars s) then
    s ++ pathWsChars
  else if listEndsWith slashChars s then
    s ++ wsChars
  else s

/-- The amended C9 sentence: as the spec says, except that when the string ends
in `/` the `ws` suffix is only appended if the string does not already end in
`/ws/`. -/
def spec_normalize_websocket_url_amended (inputUrl : List Char) : List Char :=
  let s := trimChars inputUrl
  let s :=
    if ¬(schemeWsChars.isPrefixOf s = true) ∧ ¬(schemeWssChars.isPrefixOf s = true)
    then schemeWssChars ++ s else s
  if ¬(listContainsSub pathWsChars s = true) ∧ ¬(listEndsWith slashChars s = true) then
    s ++ pathWsChars
  else if listEndsWith slashChars s = true ∧ ¬(listEndsWith wsSlashChars s = true) then
    s ++ wsChars
  else s

/-! ## Helper lemmas about the association-list map -/

theorem lookup_setBlock_self (m : List (Int × Block)) (k : Int) (b : Block) :
    lookupBlock (setBlock m k b) k = some b := by
  induction m with
  | nil => simp [setBlock, lookupBlock]
  | cons kv rest ih =>
    by_cases h : kv.1 = k
    · simp [setBlock, lookupBlock, h]
    · simp only [setBlock, lookupBlock, beq_iff_eq, if_neg h]
      exact ih

theorem lookup_setBlock_ne (m : List (Int × Block)) (k k' : Int) (b : Block)
    (h : k' ≠ k) : lookupBlock (setBlock m k b) k' = lookupBlock m k' := by
  have hkk : ¬(k = k') := fun hh => h hh.symm
  induction m with
  | nil => simp [setBlock, lookupBlock, hkk]
  | cons kv rest ih =>
    by_cases hk : kv.1 = k
    · subst hk
      simp only [setBlock, beq_self_eq_true, if_pos rfl, lookupBlock, beq_iff_eq,
        if_neg hkk]
    · simp only [setBlock, lookupBlock, beq_iff_eq, if_neg hk]
      by_cases hk' : kv.1 = k'
      · simp [lookupBlock, hk']
      · simp only [lookupBlock, beq_iff_eq, if_neg hk']
        exact ih

theorem mem_setBlock (m : List (Int × Block)) (k : Int) (b : Block)
    (kv : Int × Block) (h : kv ∈ setBlock m k b) : kv ∈ m ∨ kv = (k, b) := by
  induction m with
  | nil =>
    simp [setBlock] at h
    exact Or.inr h
  | cons kv0 rest ih =>
    by_cases hk : kv0.1 = k
    · simp only [setBlock, beq_iff_eq, if_pos hk, List.mem_cons] at h
      rcases h with h | h
      · exact Or.inr h
      · exact Or.inl (List.mem_cons_of_mem _ h)
    · simp only [setBlock, beq_iff_eq, if_neg hk, List.mem_cons] at h
      rcases h with h | h
      · exact Or.inl (h ▸ List.mem_cons_self _ _)
      · rcases ih h with h' | h'
        · exact Or.inl (List.mem_cons_of_mem _ h')
        · exact Or.inr h'

theorem mem_removeBlock (m : List (Int × Block)) (k : Int) (kv : Int × Block)
    (h : kv ∈ removeBlock m k) : kv ∈ m :=
  List.mem_of_mem_filter h

theorem lookup_mem (m : List (Int × Block)) (k : Int) (b : Block)
    (h : lookupBlock m k = some b) : (k, b) ∈ m := by
  induction m with
  | nil => simp [lookupBlock] at h
  | cons kv rest ih =>
    by_cases hk : kv.1 = k
    · simp only [lookupBlock, beq_iff_eq, if_pos hk, Option.some.injEq] at h
      subst hk h
      exact List.mem_cons_self _ _
    · simp only [lookupBlock, beq_iff_eq, if_neg hk] at h
      exact List.mem_cons_of_mem _ (ih h)

/-! ## Field-level facts about `update_with_shred` -/

theorem updateWithShred_buffered (b : Block) (shredId : Int) (s : Shred)
    (ts now : Int) :
    (b.updateWithShred shredId s ts now).buffered_shreds = b.buffered_shreds ++ [s] :=
  rfl

theorem updateWithShred_number (b : Block) (shredId : Int) (s : Shred)
    (ts now : Int) : (b.updateWithShred shredId s ts now).number = b.number :=
  rfl

theorem updateWithShred_shred_count (b : Block) (shredId : Int) (s : Shred)
    (ts now : Int) :
    (b.updateWithShred shredId s ts now).shred_count = b.shred_count + 1 :=
  rfl

theorem updateWithShred_transaction_count (b : Block) (shredId : Int) (s : Shred)
    (ts now : Int) :
    (b.updateWithShred shredId s ts now).transaction_count
      = b.transaction_count + (s.transactions.length : Int) :=
  rfl

theorem updateWithShred_state_change_count (b : Block) (shredId : Int) (s : Shred)
    (ts now : Int) :
    (b.updateWithShred shredId s ts now).state_change_count
      = b.state_change_count + (s.state_changes.length : Int) :=
  rfl

theorem updateWithShred_not_persisted (b : Block) (shredId : Int) (s : Shred)
    (ts now : Int) : (b.updateWithShred shredId s ts now).is_persisted = false :=
  rfl

/-! ## C7 — backfill start-block computation -/

/-- C7: the start block equals `max(max(tip − blocks_from_tip, 0),
configured_start, latest_in_store)` when `blocks_from_tip` is configured (with
`latest_in_store` omitted when the store is empty), and equals
`latest_in_store` when present else `configured_start` otherwise. -/
theorem computeStartBlock_spec (tip cfg : Nat) :
    (∀ bft latest, computeStartBlock tip cfg (some bft) (some latest)
        = max (max (max (tip - bft) 0) cfg) latest) ∧
    (∀ bft, computeStartBlock tip cfg (some bft) none
        = max (max (tip - bft) 0) cfg) ∧
    (∀ latest, computeStartBlock tip cfg none (some latest) = latest) ∧
    computeStartBlock tip cfg none none = cfg := by
  refine ⟨fun bft latest => ?_, fun bft => ?_, fun latest => rfl, rfl⟩ <;>
    · simp only [computeStartBlock]
      split <;> omega

/-- Witness for C7 at concrete inputs. -/
theorem computeStartBlock_spec_witness :
    computeStartBlock 1010 1000 (some 4) (some 1003)
      = max (max (max (1010 - 4) 0) 1000) 1003 :=
  (computeStartBlock_spec 1010 1000).1 4 1003

/-! ## C1 — behaviour of `persist_block_with_shreds` on write failures -/

/-- A shred used for the C1 scenario. -/
def c1Shred : Shred :=
  { block_number := 100, shred_idx := 0, transactions := [()], state_changes := []
    timestamp := none, shred_interval := none }

/-- A block holding one buffered shred, as the manager hands it to the worker. -/
def c1Block : Block :=
  (Block.new 100 0).updateWithShred 0 c1Shred 0 0

/-- C1 counterexample: for a block with a non-empty buffer, when the shred
batch succeeds and the header write then fails, `persist_block_with_shreds`
returns an error instead of terminating the process — the claimed `exit 1`
does not happen on this split-write failure. -/
theorem persist_split_write_cex :
    c1Block.buffered_shreds ≠ [] ∧
    (persist_block_with_shreds true false [7] c1Block).1 = PersistOutcome.err ∧
    PersistOutcome.err ≠ PersistOutcome.exitProcess 1 := by
  decide

/-- C1 amended: with a non-empty buffer, the process terminates with exit code
1 when the shred-batch write itself fails (that transaction rolls back, nothing
was inserted); when the header write fails after the shreds were inserted, the
function returns an error and the process keeps running (the persistence worker
merely logs it). -/
theorem persist_split_write_amended (b : Block) (ids : List Int) (headerOk : Bool)
    (hne : b.buffered_shreds ≠ []) :
    (persist_block_with_shreds false headerOk ids b).1 = PersistOutcome.exitProcess 1 ∧
    (persist_block_with_shreds true false ids b).1 = PersistOutcome.err := by
  have hlen : ¬(b.buffered_shreds.length = 0) := by
    simpa [List.length_eq_zero] using hne
  constructor
  · simp [persist_block_with_shreds, hlen]
  · simp only [persist_block_with_shreds, if_neg hlen, Bool.not_true,
      Bool.false_eq_true, if_false, if_neg (Bool.false_ne_true)]

/-- Witness for the amended C1 at the concrete scenario block. -/
theorem persist_split_write_amended_witness :
    c1Block.buffered_shreds ≠ [] ∧
    ((persist_block_with_shreds false true [7] c1Block).1
        = PersistOutcome.exitProcess 1 ∧
     (persist_block_with_shreds true false [7] c1Block).1 = PersistOutcome.err) :=
  ⟨by decide, persist_split_write_amended c1Block [7] true (by decide)⟩

/-! ## C9 — WebSocket URL normalization -/

/-- The C9 scenario input. -/
def c9Input : List Char :=
  String.toList "example.com/ws/"

/-- C9 counterexample: on `"example.com/ws/"` the spec's rule (`ws` appended
whenever the string ends in `/`) disagrees with the code, which leaves a string
already ending in `/ws/` unchanged. -/
theorem normalize_url_cex :
    spec_normalize_websocket_url c9Input ≠ normalize_websocket_url c9Input := by
  decide

/-- C9 amended: the code's normalization equals the spec's rule amended with
one exception — when the string ends in `/` but already ends in `/ws/`,
nothing is appended.  (The `/ws` presence test is a substring test.) -/
theorem normalize_url_amended (inputUrl : List Char) :
    normalize_websocket_url inputUrl = spec_normalize_websocket_url_amended inputUrl := by
  have key2 : ∀ t : List Char,
      (if !(schemeWsChars.isPrefixOf t) && !(schemeWssChars.isPrefixOf t)
       then schemeWssChars ++ t else t)
      = (if ¬(schemeWsChars.isPrefixOf t = true) ∧ ¬(schemeWssChars.isPrefixOf t = true)
         then schemeWssChars ++ t else t) := by
    intro t
    by_cases h1 : schemeWsChars.isPrefixOf t = true <;>
      by_cases h2 : schemeWssChars.isPrefixOf t = true <;>
      simp [h1, h2]
  have key : ∀ u : List Char,
      (if !(listContainsSub pathWsChars u) && !(listEndsWith slashChars u)
       then u ++ pathWsChars
       else if listEndsWith slashChars u && !(listEndsWith wsSlashChars u)
       then u ++ wsChars else u)
      = (if ¬(listContainsSub pathWsChars u = true) ∧ ¬(listEndsWith slashChars u = true)
         then u ++ pathWsChars
         else if listEndsWith slashChars u = true ∧ ¬(listEndsWith wsSlashChars u = true)
         then u ++ wsChars else u) := by
    intro u
    by_cases h3 : listContainsSub pathWsChars u = true <;>
      by_cases h4 : listEndsWith slashChars u = true <;>
      by_cases h5 : listEndsWith wsSlashChars u = true <;>
      simp [h3, h4, h5]
  simp only [normalize_websocket_url, spec_normalize_websocket_url_amended]
  rw [key, key2]

/-! ## C10 — a late shred with a smaller index makes the timing negative -/

/-- First arrival for C10: `shred_idx = 5` at time 0. -/
def c10ShredA : Shred :=
  { block_number := 100, shred_idx := 5, transactions := [()], state_changes := []
    timestamp := none, shred_interval := none }

/-- Second arrival for C10: `shred_idx = 3` at time 10. -/
def c10ShredB : Shred :=
  { block_number := 100, shred_idx := 3, transactions := [()], state_changes := []
    timestamp := none, shred_interval := none }

/-- The manager state after the two out-of-order C10 arrivals. -/
def c10State : ManagerState :=
  runManager [⟨c10ShredA, 5, 0, 0⟩, ⟨c10ShredB, 3, 10, 10⟩]

/-- C10: after the out-of-order arrivals (idx 5 at t=0, then idx 3 at t=10)
the tracked block's `first_shred_timestamp` (10) is later than its
`last_shred_timestamp` (0), `block_time = -10 < 0`, `avg_shred_interval =
-10 < 0`, and `avg_tps` stays unset even though `transaction_count = 2 > 0`,
because the guard demands `block_time > 0`. -/
theorem negative_block_time :
    (lookupBlock c10State.active_blocks 100).map Block.first_shred_timestamp
        = some (some 10) ∧
    (lookupBlock c10State.active_blocks 100).map Block.last_shred_timestamp
        = some (some 0) ∧
    (lookupBlock c10State.active_blocks 100).map Block.block_time = some (some (-10)) ∧
    (lookupBlock c10State.active_blocks 100).map Block.avg_shred_interval
        = some (some (-10)) ∧
    (lookupBlock c10State.active_blocks 100).map Block.avg_tps = some none ∧
    (lookupBlock c10State.active_blocks 100).map Block.transaction_count = some 2 ∧
    ((0 : Int) < 10 ∧ (-10 : Int) < 0 ∧ (-10 : ℚ) < 0 ∧ (0 : Int) < 2) := by
  refine ⟨rfl, rfl, rfl, ?_, rfl, rfl, by norm_num⟩
  have h : (lookupBlock c10State.active_blocks 100).map Block.avg_shred_interval
      = some (some (((-10 : Int) : ℚ) / ((1 : Int) : ℚ))) := rfl
  rw [h, show (((-10 : Int) : ℚ) / ((1 : Int) : ℚ)) = -10 by norm_num]

/-! ## C6 — bounded queue invariants -/

/-- The semaphore accounting invariant: available permits plus resident
elements always equal the configured capacity. -/
def queueInv (q : BlockQueue α) : Prop :=
  q.permits + q.elems.length = q.max_size

theorem queueStep_inv {α : Type} (q : BlockQueue α) (op : QueueOp α)
    (h : queueInv q) : queueInv (queueStep q op) := by
  cases op with
  | tryPushOp b =>
    simp only [queueStep, BlockQueue.tryPush]
    by_cases hp : 0 < q.permits
    · rw [if_pos hp]
      simp only [queueInv, List.length_append, List.length_cons, List.length_nil] at *
      omega
    · rw [if_neg hp]
      exact h
  | tryPopOp =>
    simp only [queueStep, BlockQueue.tryPop]
    cases he : q.elems with
    | nil => exact h
    | cons x rest =>
      unfold queueInv at h ⊢
      rw [he] at h
      simp only [List.length_cons] at h
      show q.permits + 1 + rest.length = q.max_size
      omega
  | pushOp b =>
    simp only [queueStep, BlockQueue.pushBlocking]
    by_cases hp : 0 < q.permits
    · rw [if_pos hp]
      simp only [queueInv, List.length_append, List.length_cons, List.length_nil] at *
      omega
    · rw [if_neg hp]
      exact h

theorem foldl_queueStep_inv {α : Type} (ops : List (QueueOp α)) :
    ∀ q : BlockQueue α, queueInv q → queueInv (ops.foldl queueStep q) := by
  induction ops with
  | nil => exact fun q h => h
  | cons op rest ih => exact fun q h => ih _ (queueStep_inv q op h)

theorem runQueue_inv {α : Type} (n : Nat) (ops : List (QueueOp α)) :
    queueInv (runQueue α n ops) :=
  foldl_queueStep_inv ops _ (by simp [queueInv, BlockQueue.withCapacity])

/-- C6: in every state reachable by `push` / `try_push` / `try_pop` from a
fresh queue of capacity `n`, `len() ≤ capacity()` holds and `len()` counts the
resident elements; `try_push` succeeds and appends the element exactly when
fewer than `capacity` elements reside, and otherwise returns `false` leaving
the queue untouched; and with capacity 2 three sequential `try_push` calls
return `true`, `true`, `false`. -/
theorem blockQueue_bound_tryPush (α : Type) (n : Nat) (ops : List (QueueOp α))
    (b : α) :
    ((runQueue α n ops).len ≤ (runQueue α n ops).capacity ∧
     (runQueue α n ops).len = (runQueue α n ops).elems.length ∧
     (runQueue α n ops).elems.length ≤ (runQueue α n ops).capacity) ∧
    (((runQueue α n ops).tryPush b).2 = true
        ↔ (runQueue α n ops).elems.length < (runQueue α n ops).capacity) ∧
    (((runQueue α n ops).tryPush b).1
        = if (runQueue α n ops).elems.length < (runQueue α n ops).capacity
          then { runQueue α n ops with
                 elems := (runQueue α n ops).elems ++ [b]
                 permits := (runQueue α n ops).permits - 1 }
          else runQueue α n ops) ∧
    (((BlockQueue.withCapacity Nat 2).tryPush 10).2 = true ∧
     (((BlockQueue.withCapacity Nat 2).tryPush 10).1.tryPush 11).2 = true ∧
     ((((BlockQueue.withCapacity Nat 2).tryPush 10).1.tryPush 11).1.tryPush 12).2
        = false) := by
  have hinv := runQueue_inv n ops
  unfold queueInv at hinv
  refine ⟨⟨?_, ?_, ?_⟩, ?_, ?_, by decide⟩
  · simp only [BlockQueue.len, BlockQueue.capacity]
    omega
  · simp only [BlockQueue.len, BlockQueue.capacity]
    omega
  · simp only [BlockQueue.capacity]
    omega
  · simp only [BlockQueue.tryPush, BlockQueue.capacity]
    split <;> simp <;> omega
  · simp only [BlockQueue.tryPush, BlockQueue.capacity]
    split
    · rw [if_pos (by omega)]
    · rw [if_neg (by omega)]

/-! ## C2 — duplicate shred policy -/

/-- C2: when the incoming shred's `(block_number, shred_idx)` already appears
among the buffered shreds of the tracked block with that number, `add_shred`
increments `duplicate_count` and `blocks_dropped_count` by one each, replaces
the tracked block by a fresh block built from just the incoming shred (so its
buffer is `[s]` and `shred_count = 1`), and returns no blocks to persist. -/
theorem addShred_duplicate (st : ManagerState) (s : Shred) (shredId ts now : Int)
    (existing : Block)
    (hlook : lookupBlock st.active_blocks s.block_number = some existing)
    (hdup : existing.buffered_shreds.any (fun sh => sh.shred_idx == s.shred_idx) = true) :
    (BlockManager.addShred st s shredId ts now).2 = [] ∧
    (BlockManager.addShred st s shredId ts now).1.duplicate_count
      = st.duplicate_count + 1 ∧
    (BlockManager.addShred st s shredId ts now).1.blocks_dropped_count
      = st.blocks_dropped_count + 1 ∧
    lookupBlock (BlockManager.addShred st s shredId ts now).1.active_blocks
        s.block_number
      = some ((Block.new s.block_number (s.timestamp.getD now)).updateWithShred
          shredId s ts now) ∧
    ((Block.new s.block_number (s.timestamp.getD now)).updateWithShred
        shredId s ts now).buffered_shreds = [s] ∧
    ((Block.new s.block_number (s.timestamp.getD now)).updateWithShred
        shredId s ts now).shred_count = 1 := by
  have hbranch : (BlockManager.addShred st s shredId ts now)
      = ({ active_blocks := setBlock (removeBlock st.active_blocks s.block_number)
             s.block_number
             ((Block.new s.block_number (s.timestamp.getD now)).updateWithShred
               shredId s ts now)
           duplicate_count := st.duplicate_count + 1
           blocks_dropped_count := st.blocks_dropped_count + 1 }, []) := by
    simp [BlockManager.addShred, hlook, hdup]
  rw [hbranch]
  refine ⟨rfl, rfl, rfl, lookup_setBlock_self _ _ _, ?_, rfl⟩
  rw [updateWithShred_buffered]
  rfl

/-- The shred used in the concrete C2 scenario. -/
def c2Shred : Shred :=
  { block_number := 100, shred_idx := 0, transactions := [], state_changes := []
    timestamp := none, shred_interval := none }

/-- Manager state after the first `(100, 0)` arrival. -/
def c2State : ManagerState :=
  (BlockManager.addShred ManagerState.initial c2Shred 0 0 0).1

/-- The block tracked after the first arrival. -/
def c2Existing : Block :=
  (Block.new 100 0).updateWithShred 0 c2Shred 0 0

/-- Witness for C2: the second `(100, 0)` arrival is a duplicate and the
conclusions hold at this concrete state. -/
theorem addShred_duplicate_witness :
    (lookupBlock c2State.active_blocks c2Shred.block_number = some c2Existing ∧
     c2Existing.buffered_shreds.any (fun sh => sh.shred_idx == c2Shred.shred_idx)
        = true) ∧
    ((BlockManager.addShred c2State c2Shred 0 5 5).2 = [] ∧
     (BlockManager.addShred c2State c2Shred 0 5 5).1.duplicate_count
        = c2State.duplicate_count + 1 ∧
     (BlockManager.addShred c2State c2Shred 0 5 5).1.blocks_dropped_count
        = c2State.blocks_dropped_count + 1 ∧
     lookupBlock (BlockManager.addShred c2State c2Shred 0 5 5).1.active_blocks
         c2Shred.block_number
       = some ((Block.new c2Shred.block_number (c2Shred.timestamp.getD 5)).updateWithShred
           0 c2Shred 5 5) ∧
     ((Block.new c2Shred.block_number (c2Shred.timestamp.getD 5)).updateWithShred
         0 c2Shred 5 5).buffered_shreds = [c2Shred] ∧
     ((Block.new c2Shred.block_number (c2Shred.timestamp.getD 5)).updateWithShred
         0 c2Shred 5 5).shred_count = 1) :=
  ⟨⟨by decide, by decide⟩,
   addShred_duplicate c2State c2Shred 0 5 5 c2Existing (by decide) (by decide)⟩

/-! ## C3 — boundary trigger -/

/-- Scenario shred `(100, 0)` at t=0. -/
def s2a : Shred :=
  { block_number := 100, shred_idx := 0, transactions := [], state_changes := []
    timestamp := none, shred_interval := none }

/-- Scenario shred `(100, 1)` at t=10. -/
def s2b : Shred :=
  { block_number := 100, shred_idx := 1, transactions := [], state_changes := []
    timestamp := none, shred_interval := none }

/-- Scenario shred `(101, 0)` at t=20. -/
def s2c : Shred :=
  { block_number := 101, shred_idx := 0, transactions := [], state_changes := []
    timestamp := none, shred_interval := none }

/-- Manager state after the `(100,0)` and `(100,1)` arrivals. -/
def s2State : ManagerState :=
  runManager [⟨s2a, 0, 0, 0⟩, ⟨s2b, 1, 10, 10⟩]

/-- C3: a non-duplicate arrival for block `N` returns exactly the tracked
unpersisted blocks with number `< N`, changes no other entry of the map, and
upserts the entry for `N` via `update_with_shred`; counters stay put.  In the
S2 scenario the `(101,0)` arrival returns block 100 with `shred_count = 2`,
and block 101 is tracked with `shred_count = 1`. -/
theorem addShred_boundary (st : ManagerState) (s : Shred) (shredId ts now : Int)
    (hnodup : (match lookupBlock st.active_blocks s.block_number with
      | some existing =>
          existing.buffered_shreds.any (fun sh => sh.shred_idx == s.shred_idx)
      | none => false) = false)
    (hwfb : st.active_blocks.all (fun kv => kv.2.number == kv.1) = true) :
    (∀ b : Block, b ∈ (BlockManager.addShred st s shredId ts now).2 ↔
      ((b.number, b) ∈ st.active_blocks ∧ b.number < s.block_number ∧
        b.is_persisted = false)) ∧
    (∀ k, k ≠ s.block_number →
      lookupBlock (BlockManager.addShred st s shredId ts now).1.active_blocks k
        = lookupBlock st.active_blocks k) ∧
    lookupBlock (BlockManager.addShred st s shredId ts now).1.active_blocks
        s.block_number
      = some (((lookupBlock st.active_blocks s.block_number).getD
          (Block.new s.block_number (s.timestamp.getD now))).updateWithShred
            shredId s ts now) ∧
    (BlockManager.addShred st s shredId ts now).1.duplicate_count
      = st.duplicate_count ∧
    (BlockManager.addShred st s shredId ts now).1.blocks_dropped_count
      = st.blocks_dropped_count ∧
    ((BlockManager.addShred s2State s2c 0 20 20).2.map
        (fun b => (b.number, b.shred_count)) = [(100, 2)] ∧
     (lookupBlock (BlockManager.addShred s2State s2c 0 20 20).1.active_blocks
        101).map Block.shred_count = some 1) := by
  have hwf : ∀ kv ∈ st.active_blocks, kv.2.number = kv.1 := by
    intro kv hkv
    have := List.all_eq_true.mp hwfb kv hkv
    simpa [beq_iff_eq] using this
  have hisDup := hnodup
  have hbranch : BlockManager.addShred st s shredId ts now
      = ({ st with active_blocks := (setBlock st.active_blocks s.block_number
             (((lookupBlock st.active_blocks s.block_number).getD
               (Block.new s.block_number (s.timestamp.getD now))).updateWithShred
                 shredId s ts now)) },
         (st.active_blocks.filter
           (fun kv => decide (kv.1 < s.block_number) && !kv.2.is_persisted)).map
           Prod.snd) := by
    simp [BlockManager.addShred, hisDup]
  rw [hbranch]
  refine ⟨?_, ?_, lookup_setBlock_self _ _ _, rfl, rfl, by decide, by decide⟩
  · intro b
    constructor
    · intro hb
      obtain ⟨kv, hkvmem, hkv⟩ := List.mem_map.mp hb
      obtain ⟨hmem, hp⟩ := List.mem_filter.mp hkvmem
      simp only [Bool.and_eq_true, decide_eq_true_eq, Bool.not_eq_true'] at hp
      have hnum := hwf kv hmem
      subst hkv
      refine ⟨?_, ?_, hp.2⟩
      · rw [hnum]
        exact hmem
      · rw [hnum]
        exact hp.1
    · rintro ⟨hmem, hlt, hpers⟩
      exact List.mem_map.mpr ⟨(b.number, b),
        List.mem_filter.mpr ⟨hmem, by simp [hlt, hpers]⟩, rfl⟩
  · intro k hk
    exact lookup_setBlock_ne _ _ _ _ hk

/-- Witness for C3 at the S2 scenario: the `(101,0)` arrival is not a
duplicate, the map is well-keyed, and the entry for block 101 is upserted. -/
theorem addShred_boundary_witness :
    ((match lookupBlock s2State.active_blocks s2c.block_number with
      | some existing =>
          existing.buffered_shreds.any (fun sh => sh.shred_idx == s2c.shred_idx)
      | none => false) = false ∧
     s2State.active_blocks.all (fun kv => kv.2.number == kv.1) = true) ∧
    lookupBlock (BlockManager.addShred s2State s2c 0 20 20).1.active_blocks
        s2c.block_number
      = some (((lookupBlock s2State.active_blocks s2c.block_number).getD
          (Block.new s2c.block_number (s2c.timestamp.getD 20))).updateWithShred
            0 s2c 20 20) :=
  ⟨⟨by decide, by decide⟩,
   (addShred_boundary s2State s2c 0 20 20 (by decide) (by decide)).2.2.1⟩

/-! ## C5 — the `persisted` flag does not imply an empty buffer -/

/-- The shred used for the C5 scenario. -/
def c5Shred : Shred :=
  { block_number := 100, shred_idx := 0, transactions := [], state_changes := []
    timestamp := none, shred_interval := none }

/-- State tracking block 100 with one buffered shred. -/
def c5StatePre : ManagerState :=
  (BlockManager.addShred ManagerState.initial c5Shred 0 0 0).1

/-- The block tracked in `c5StatePre`. -/
def c5BlockPre : Block :=
  (Block.new 100 0).updateWithShred 0 c5Shred 0 0

/-- State after `persist_block` marked block 100 as persisted (send succeeded). -/
def c5State : ManagerState :=
  BlockManager.persistBlockMark c5StatePre 100 true

/-- C5 counterexample: after `persist_block` marks the tracked block, its
`is_persisted` flag is `true` while its buffer still holds one shred — the
flag being set does not empty `buffered`. -/
theorem persisted_flag_cex :
    (lookupBlock c5State.active_blocks 100).map
        (fun b => (b.is_persisted, b.buffered_shreds.length)) = some (true, 1) ∧
    (1 : Nat) ≠ 0 := by
  decide

/-- C5 amended: `mark_persisted` (run by the persistence worker on its own
copy) sets the flag and empties the buffer; the manager's `persist_block` sets
the tracked copy's flag but leaves its buffer as is; and a later non-duplicate
`add_shred` for the same number mutates the tracked block again, appending to
its buffer and resetting the flag to `false`. -/
theorem persisted_flag_amended :
    (∀ b : Block, b.markPersisted.is_persisted = true ∧
      b.markPersisted.buffered_shreds = []) ∧
    (∀ (st : ManagerState) (n : Int) (b : Block),
      lookupBlock st.active_blocks n = some b →
      lookupBlock (BlockManager.persistBlockMark st n true).active_blocks n
        = some { b with is_persisted := true }) ∧
    (∀ (st : ManagerState) (s : Shred) (shredId ts now : Int) (b : Block),
      lookupBlock st.active_blocks s.block_number = some b →
      b.buffered_shreds.any (fun sh => sh.shred_idx == s.shred_idx) = false →
      lookupBlock (BlockManager.addShred st s shredId ts now).1.active_blocks
          s.block_number
        = some (b.updateWithShred shredId s ts now) ∧
      (b.updateWithShred shredId s ts now).is_persisted = false ∧
      (b.updateWithShred shredId s ts now).buffered_shreds
        = b.buffered_shreds ++ [s]) := by
  refine ⟨fun b => ⟨rfl, rfl⟩, ?_, ?_⟩
  · intro st n b h
    simp [BlockManager.persistBlockMark, h, lookup_setBlock_self]
  · intro st s shredId ts now b hlook hno
    have hisDup : (match lookupBlock st.active_blocks s.block_number with
        | some existing =>
            existing.buffered_shreds.any (fun sh => sh.shred_idx == s.shred_idx)
        | none => false) = false := by
      rw [hlook]
      exact hno
    refine ⟨?_, rfl, rfl⟩
    have hb : (BlockManager.addShred st s shredId ts now).1.active_blocks
        = setBlock st.active_blocks s.block_number
            (((lookupBlock st.active_blocks s.block_number).getD
              (Block.new s.block_number (s.timestamp.getD now))).updateWithShred
                shredId s ts now) := by
      simp [BlockManager.addShred, hisDup]
    rw [hb, lookup_setBlock_self, hlook]
    rfl

/-- Witness for the amended C5 at the concrete scenario state. -/
theorem persisted_flag_amended_witness :
    lookupBlock c5StatePre.active_blocks 100 = some c5BlockPre ∧
    lookupBlock (BlockManager.persistBlockMark c5StatePre 100 true).active_blocks 100
      = some { c5BlockPre with is_persisted := true } :=
  ⟨by decide, persisted_flag_amended.2.1 c5StatePre 100 c5BlockPre (by decide)⟩

/-! ## C4 — per-block bookkeeping invariants -/

/-- The bookkeeping invariant for one tracked block under key `k`. -/
def BlockWF (k : Int) (b : Block) : Prop :=
  b.number = k ∧
  (∀ sh ∈ b.buffered_shreds, sh.block_number = b.number) ∧
  b.buffered_shreds.Pairwise (fun x y => x.shred_idx ≠ y.shred_idx) ∧
  b.shred_count = (b.buffered_shreds.length : Int) ∧
  b.transaction_count
    = (b.buffered_shreds.map (fun sh => (sh.transactions.length : Int))).sum ∧
  b.state_change_count
    = (b.buffered_shreds.map (fun sh => (sh.state_changes.length : Int))).sum ∧
  b.is_persisted = false

/-- All tracked blocks satisfy the bookkeeping invariant. -/
def StateWF (st : ManagerState) : Prop :=
  ∀ kv ∈ st.active_blocks, BlockWF kv.1 kv.2

theorem blockWF_fresh (s : Shred) (t0 shredId ts now : Int) :
    BlockWF s.block_number
      ((Block.new s.block_number t0).updateWithShred shredId s ts now) := by
  refine ⟨rfl, ?_, ?_, ?_, ?_, ?_, rfl⟩
  · intro sh hsh
    rw [updateWithShred_buffered] at hsh
    rw [updateWithShred_number]
    simp only [Block.new, List.nil_append, List.mem_singleton] at hsh ⊢
    rw [hsh]
  · rw [updateWithShred_buffered]
    simp [Block.new]
  · rw [updateWithShred_shred_count, updateWithShred_buffered]
    simp [Block.new]
  · rw [updateWithShred_transaction_count, updateWithShred_buffered]
    simp [Block.new]
  · rw [updateWithShred_state_change_count, updateWithShred_buffered]
    simp [Block.new]

theorem blockWF_step (k : Int) (b : Block) (s : Shred) (shredId ts now : Int)
    (hwf : BlockWF k b) (hbn : s.block_number = b.number)
    (hfresh : ∀ sh ∈ b.buffered_shreds, sh.shred_idx ≠ s.shred_idx) :
    BlockWF k (b.updateWithShred shredId s ts now) := by
  obtain ⟨h1, h2, h3, h4, h5, h6, _h7⟩ := hwf
  refine ⟨?_, ?_, ?_, ?_, ?_, ?_, rfl⟩
  · rw [updateWithShred_number]
    exact h1
  · intro sh hsh
    rw [updateWithShred_buffered] at hsh
    rw [updateWithShred_number]
    rcases List.mem_append.mp hsh with hm | hm
    · exact h2 sh hm
    · rw [List.mem_singleton] at hm
      rw [hm]
      exact hbn
  · rw [updateWithShred_buffered]
    refine List.pairwise_append.mpr ⟨h3, List.pairwise_singleton _ _, ?_⟩
    intro x hx y hy
    rw [List.mem_singleton] at hy
    rw [hy]
    exact hfresh x hx
  · rw [updateWithShred_shred_count, updateWithShred_buffered, h4]
    simp only [List.length_append, List.length_singleton]
    push_cast
    ring
  · rw [updateWithShred_transaction_count, updateWithShred_buffered, h5]
    simp [List.map_append, List.sum_append]
  · rw [updateWithShred_state_change_count, updateWithShred_buffered, h6]
    simp [List.map_append, List.sum_append]

theorem addShred_preserves_wf (st : ManagerState) (s : Shred)
    (shredId ts now : Int) (h : StateWF st) :
    StateWF (BlockManager.addShred st s shredId ts now).1 := by
  cases hl : lookupBlock st.active_blocks s.block_number with
  | none =>
    have hmap : (BlockManager.addShred st s shredId ts now).1.active_blocks
        = setBlock st.active_blocks s.block_number
            ((Block.new s.block_number (s.timestamp.getD now)).updateWithShred
              shredId s ts now) := by
      simp [BlockManager.addShred, hl]
    intro kv hkv
    rw [hmap] at hkv
    rcases mem_setBlock _ _ _ _ hkv with hm | he
    · exact h kv hm
    · rw [he]
      exact blockWF_fresh s _ shredId ts now
  | some existing =>
    cases hany : existing.buffered_shreds.any (fun sh => sh.shred_idx == s.shred_idx) with
    | true =>
      have hmap : (BlockManager.addShred st s shredId ts now).1.active_blocks
          = setBlock (removeBlock st.active_blocks s.block_number) s.block_number
              ((Block.new s.block_number (s.timestamp.getD now)).updateWithShred
                shredId s ts now) := by
        simp [BlockManager.addShred, hl, hany]
      intro kv hkv
      rw [hmap] at hkv
      rcases mem_setBlock _ _ _ _ hkv with hm | he
      · exact h kv (mem_removeBlock _ _ _ hm)
      · rw [he]
        exact blockWF_fresh s _ shredId ts now
    | false =>
      have hisDup : (match lookupBlock st.active_blocks s.block_number with
          | some e => e.buffered_shreds.any (fun sh => sh.shred_idx == s.shred_idx)
          | none => false) = false := by
        rw [hl]
        exact hany
      have hmap : (BlockManager.addShred st s shredId ts now).1.active_blocks
          = setBlock st.active_blocks s.block_number
              (existing.updateWithShred shredId s ts now) := by
        simp [BlockManager.addShred, hl, hany]
      have hex : BlockWF s.block_number existing :=
        h (s.block_number, existing) (lookup_mem _ _ _ hl)
      intro kv hkv
      rw [hmap] at hkv
      rcases mem_setBlock _ _ _ _ hkv with hm | he
      · exact h kv hm
      · rw [he]
        refine blockWF_step _ _ _ _ _ _ hex hex.1.symm ?_
        intro sh hsh
        have := List.any_eq_false.mp hany sh hsh
        simpa [beq_iff_eq] using this

theorem foldl_addShred_wf (ops : List ShredArrival) :
    ∀ st : ManagerState, StateWF st →
      StateWF (ops.foldl
        (fun st op =>
          (BlockManager.addShred st op.shred op.shredId op.timestamp op.now).1) st) := by
  induction ops with
  | nil => exact fun st h => h
  | cons op rest ih =>
    exact fun st h => ih _ (addShred_preserves_wf st op.shred op.shredId
      op.timestamp op.now h)

theorem runManager_wf (ops : List ShredArrival) : StateWF (runManager ops) :=
  foldl_addShred_wf ops ManagerState.initial (fun kv hkv => absurd hkv (by simp [ManagerState.initial]))

/-- C4: for every block tracked by a manager state reached from the empty map
by `add_shred` calls (the only callers of `update_with_shred`), if its
`persisted` flag is clear then every buffered shred carries the block's
number, no two buffered shreds share a `shred_idx`, `shred_count` equals the
buffer length, and the transaction / state-change counts equal the sums over
the buffer. -/
theorem manager_block_invariants (ops : List ShredArrival) (k : Int) (b : Block)
    (hlook : lookupBlock (runManager ops).active_blocks k = some b)
    (_hps : b.is_persisted = false) :
    (∀ sh ∈ b.buffered_shreds, sh.block_number = b.number) ∧
    b.buffered_shreds.Pairwise (fun x y => x.shred_idx ≠ y.shred_idx) ∧
    b.shred_count = (b.buffered_shreds.length : Int) ∧
    b.transaction_count
      = (b.buffered_shreds.map (fun sh => (sh.transactions.length : Int))).sum ∧
    b.state_change_count
      = (b.buffered_shreds.map (fun sh => (sh.state_changes.length : Int))).sum := by
  have hwf := runManager_wf ops (k, b) (lookup_mem _ _ _ hlook)
  exact ⟨hwf.2.1, hwf.2.2.1, hwf.2.2.2.1, hwf.2.2.2.2.1, hwf.2.2.2.2.2.1⟩

/-- The shred used in the C4 witness run. -/
def c4Shred : Shred :=
  { block_number := 100, shred_idx := 0, transactions := [(), ()]
    state_changes := [()], timestamp := none, shred_interval := none }

/-- The single-arrival operation list for the C4 witness. -/
def c4Ops : List ShredArrival :=
  [⟨c4Shred, 0, 0, 0⟩]

/-- The block the C4 witness run tracks. -/
def c4Block : Block :=
  (Block.new 100 0).updateWithShred 0 c4Shred 0 0

/-- Witness for C4 at a concrete one-arrival run. -/
theorem manager_block_invariants_witness :
    (lookupBlock (runManager c4Ops).active_blocks 100 = some c4Block ∧
     c4Block.is_persisted = false) ∧
    ((∀ sh ∈ c4Block.buffered_shreds, sh.block_number = c4Block.number) ∧
     c4Block.buffered_shreds.Pairwise (fun x y => x.shred_idx ≠ y.shred_idx) ∧
     c4Block.shred_count = (c4Block.buffered_shreds.length : Int) ∧
     c4Block.transaction_count
       = (c4Block.buffered_shreds.map (fun sh => (sh.transactions.length : Int))).sum ∧
     c4Block.state_change_count
       = (c4Block.buffered_shreds.map (fun sh => (sh.state_changes.length : Int))).sum) :=
  ⟨⟨by decide, by decide⟩,
   manager_block_invariants c4Ops 100 c4Block (by decide) (by decide)⟩

/-! ## C8 — batch partitioning and fetch-range completeness -/

theorem aux_mem_bounds (R : Nat) (hR : 1 ≤ R) :
    ∀ (fuel batchIdx current endBlock : Nat)
      (t : Nat × Nat × Nat), t ∈ createBatchRangesAux R fuel batchIdx current endBlock →
      current ≤ t.2.1 ∧ t.2.1 ≤ t.2.2 ∧ t.2.2 ≤ endBlock ∧ t.2.2 + 1 - t.2.1 ≤ R := by
  intro fuel
  induction fuel with
  | zero => intro _ _ _ t ht; simp [createBatchRangesAux] at ht
  | succ fuel ih =>
    intro batchIdx current endBlock t ht
    by_cases hce : current ≤ endBlock
    · rw [createBatchRangesAux, if_pos hce] at ht
      have hm1 : min (current + R - 1) endBlock ≤ current + R - 1 := Nat.min_le_left _ _
      have hm2 : min (current + R - 1) endBlock ≤ endBlock := Nat.min_le_right _ _
      have hm3 : current ≤ min (current + R - 1) endBlock :=
        le_min (by omega) hce
      rcases List.mem_cons.mp ht with h | h
      · rw [h]
        refine ⟨le_refl _, hm3, hm2, ?_⟩
        show min (current + R - 1) endBlock + 1 - current ≤ R
        omega
      · have := ih (batchIdx + 1) (min (current + R - 1) endBlock + 1) endBlock t h
        exact ⟨by omega, this.2.1, this.2.2.1, this.2.2.2⟩
    · rw [createBatchRangesAux, if_neg hce] at ht
      simp at ht

theorem aux_map_fst (R : Nat) :
    ∀ (fuel batchIdx current endBlock : Nat),
      (createBatchRangesAux R fuel batchIdx current endBlock).map Prod.fst
        = List.range' batchIdx (createBatchRangesAux R fuel batchIdx current endBlock).length := by
  intro fuel
  induction fuel with
  | zero => intro _ _ _; simp [createBatchRangesAux]
  | succ fuel ih =>
    intro batchIdx current endBlock
    by_cases hce : current ≤ endBlock
    · rw [createBatchRangesAux, if_pos hce]
      simp only [List.map_cons, List.length_cons]
      rw [ih, List.range'_succ]
    · rw [createBatchRangesAux, if_neg hce]
      simp

theorem aux_cover (R : Nat) (hR : 1 ≤ R) :
    ∀ (fuel current batchIdx endBlock k : Nat),
      endBlock + 1 - current ≤ fuel → current ≤ k → k ≤ endBlock →
      ∃ t ∈ createBatchRangesAux R fuel batchIdx current endBlock,
        t.2.1 ≤ k ∧ k ≤ t.2.2 := by
  intro fuel
  induction fuel with
  | zero => intro current _ endBlock k hfuel hck hke; omega
  | succ fuel ih =>
    intro current batchIdx endBlock k hfuel hck hke
    have hce : current ≤ endBlock := le_trans hck hke
    rw [createBatchRangesAux, if_pos hce]
    have hm3 : current ≤ min (current + R - 1) endBlock := le_min (by omega) hce
    by_cases hk : k ≤ min (current + R - 1) endBlock
    · exact ⟨(batchIdx, current, min (current + R - 1) endBlock),
        List.mem_cons_self _ _, hck, hk⟩
    · obtain ⟨t, htmem, ht1, ht2⟩ :=
        ih (min (current + R - 1) endBlock + 1) (batchIdx + 1) endBlock k
          (by omega) (by omega) hke
      exact ⟨t, List.mem_cons_of_mem _ htmem, ht1, ht2⟩

theorem aux_head_start (R : Nat) :
    ∀ (fuel batchIdx current endBlock : Nat) (t : Nat × Nat × Nat)
      (rest : List (Nat × Nat × Nat)),
      createBatchRangesAux R fuel batchIdx current endBlock = t :: rest →
      t.2.1 = current := by
  intro fuel batchIdx current endBlock t rest h
  cases fuel with
  | zero => simp [createBatchRangesAux] at h
  | succ fuel =>
    by_cases hce : current ≤ endBlock
    · rw [createBatchRangesAux, if_pos hce] at h
      cases h
      rfl
    · rw [createBatchRangesAux, if_neg hce] at h
      cases h

theorem aux_chain (R : Nat) :
    ∀ (fuel batchIdx current endBlock : Nat),
      List.Chain' (fun a b : Nat × Nat × Nat => b.2.1 = a.2.2 + 1)
        (createBatchRangesAux R fuel batchIdx current endBlock) := by
  intro fuel
  induction fuel with
  | zero => intro _ _ _; simp [createBatchRangesAux]
  | succ fuel ih =>
    intro batchIdx current endBlock
    by_cases hce : current ≤ endBlock
    · rw [createBatchRangesAux, if_pos hce]
      refine List.chain'_cons'.mpr ⟨?_, ih _ _ _⟩
      intro y hy
      cases htail : createBatchRangesAux R fuel (batchIdx + 1)
          (min (current + R - 1) endBlock + 1) endBlock with
      | nil => rw [htail] at hy; simp at hy
      | cons t0 rest =>
        rw [htail] at hy
        simp only [List.head?_cons, Option.mem_def, Option.some.injEq] at hy
        rw [← hy]
        exact aux_head_start R fuel _ _ _ t0 rest htail
    · rw [createBatchRangesAux, if_neg hce]
      simp

theorem aux_pairwise (R : Nat) (hR : 1 ≤ R) :
    ∀ (fuel batchIdx current endBlock : Nat),
      (createBatchRangesAux R fuel batchIdx current endBlock).Pairwise
        (fun a b => a.2.2 < b.2.1) := by
  intro fuel
  induction fuel with
  | zero => intro _ _ _; simp [createBatchRangesAux]
  | succ fuel ih =>
    intro batchIdx current endBlock
    by_cases hce : current ≤ endBlock
    · rw [createBatchRangesAux, if_pos hce]
      refine List.Pairwise.cons ?_ (ih _ _ _)
      intro t ht
      have := (aux_mem_bounds R hR fuel _ _ _ t ht).1
      show min (current + R - 1) endBlock < t.2.1
      omega
    · rw [createBatchRangesAux, if_neg hce]
      simp

theorem processChunk_covers (rpc : Nat → RpcReply)
    (hfaith : ∀ k eb, rpc k = RpcReply.okReply eb → eb.number = some k)
    (a b k : Nat) (ha : a ≤ k) (hb : k ≤ b) :
    (∃ mb ∈ (processChunk rpc a b).1, mb.number = k) ∨
    k ∈ (processChunk rpc a b).2 := by
  have hk : k ∈ List.range' a (b + 1 - a) := by
    rw [List.mem_range'_1]
    omega
  unfold processChunk
  cases hfb : fetchBlocksBatch rpc (List.range' a (b + 1 - a)) with
  | none =>
    right
    simp only [hfb]
    exact hk
  | some ebs =>
    have hsplit : (List.range' a (b + 1 - a)).all
        (fun n => match rpc n with | .okReply _ => true | _ => false) = true ∧
        ebs = (List.range' a (b + 1 - a)).filterMap
          (fun n => match rpc n with | .okReply eb => some eb | _ => none) := by
      unfold fetchBlocksBatch at hfb
      split at hfb
      · exact ⟨by assumption, (Option.some.injEq _ _ ▸ hfb).symm⟩
      · cases hfb
    obtain ⟨eb, hrpc⟩ : ∃ eb, rpc k = RpcReply.okReply eb := by
      have hx := List.all_eq_true.mp hsplit.1 k hk
      cases hcase : rpc k with
      | okReply eb => exact ⟨eb, rfl⟩
      | nullReply => rw [hcase] at hx; simp at hx
      | failReply => rw [hcase] at hx; simp at hx
    have hnum := hfaith k eb hrpc
    left
    simp only [hfb]
    refine ⟨⟨k⟩, ?_, rfl⟩
    simp only [List.mem_filterMap]
    refine ⟨eb, ?_, by simp [convert_block, hnum]⟩
    rw [hsplit.2, List.mem_filterMap]
    exact ⟨k, hk, by rw [hrpc]⟩

theorem fetchBatchRun_covers (rpc : Nat → RpcReply) (R : Nat) (hR : 1 ≤ R)
    (hfaith : ∀ k eb, rpc k = RpcReply.okReply eb → eb.number = some k)
    (a b k : Nat) (ha : a ≤ k) (hb : k ≤ b) :
    (∃ mb ∈ (fetchBatchRun rpc R a b).1, mb.number = k) ∨
    k ∈ (fetchBatchRun rpc R a b).2 := by
  obtain ⟨t, htmem, ht1, ht2⟩ :=
    aux_cover R hR (b + 1 - a) a 0 b k (le_refl _) ha hb
  rcases processChunk_covers rpc hfaith t.2.1 t.2.2 k ht1 ht2 with ⟨mb, hmb, hn⟩ | herr
  · exact Or.inl ⟨mb, List.mem_flatMap.mpr ⟨t, htmem, hmb⟩, hn⟩
  · exact Or.inr (List.mem_flatMap.mpr ⟨t, htmem, herr⟩)

/-- C8: `create_batch_ranges(s, e)` (with a positive batch width `R`) yields
sub-ranges tagged `0, 1, 2, ...`, each non-empty of width at most `R`,
consecutive and pairwise disjoint, whose union is exactly `[s, e]`; and after
`fetch_blocks_range(s, e)` every `k ∈ [s, e]` was either pushed to the queue as
a block numbered `k` or covered by a logged error (assuming the RPC answers a
request for block `k` with a header numbered `k` when it answers at all). -/
theorem fetch_range_spec (rpc : Nat → RpcReply) (R s e : Nat)
    (hR : 1 ≤ R) (_hse : s ≤ e)
    (hfaith : ∀ k eb, rpc k = RpcReply.okReply eb → eb.number = some k) :
    ((create_batch_ranges R s e).map Prod.fst
        = List.range (create_batch_ranges R s e).length) ∧
    (∀ t ∈ create_batch_ranges R s e,
      s ≤ t.2.1 ∧ t.2.1 ≤ t.2.2 ∧ t.2.2 ≤ e ∧ t.2.2 + 1 - t.2.1 ≤ R) ∧
    List.Chain' (fun a b : Nat × Nat × Nat => b.2.1 = a.2.2 + 1)
      (create_batch_ranges R s e) ∧
    (create_batch_ranges R s e).Pairwise (fun a b => a.2.2 < b.2.1) ∧
    (∀ k, (s ≤ k ∧ k ≤ e) ↔
      ∃ t ∈ create_batch_ranges R s e, t.2.1 ≤ k ∧ k ≤ t.2.2) ∧
    (∀ k, s ≤ k → k ≤ e →
      (∃ mb ∈ (fetch_blocks_range rpc R s e).1, mb.number = k) ∨
      k ∈ (fetch_blocks_range rpc R s e).2) := by
  refine ⟨?_, ?_, aux_chain R _ _ _ _, aux_pairwise R hR _ _ _ _, ?_, ?_⟩
  · rw [List.range_eq_range']
    exact aux_map_fst R _ _ _ _
  · intro t ht
    exact aux_mem_bounds R hR _ _ _ _ t ht
  · intro k
    constructor
    · intro ⟨hs, he⟩
      exact aux_cover R hR (e + 1 - s) s 0 e k (le_refl _) hs he
    · intro ⟨t, htmem, ht1, ht2⟩
      have := aux_mem_bounds R hR _ _ _ _ t htmem
      omega
  · intro k hs he
    obtain ⟨t, htmem, ht1, ht2⟩ :=
      aux_cover R hR (e + 1 - s) s 0 e k (le_refl _) hs he
    rcases fetchBatchRun_covers rpc R hR hfaith t.2.1 t.2.2 k ht1 ht2 with
      ⟨mb, hmb, hn⟩ | herr
    · exact Or.inl ⟨mb, List.mem_flatMap.mpr ⟨t, htmem, hmb⟩, hn⟩
    · exact Or.inr (List.mem_flatMap.mpr ⟨t, htmem, herr⟩)

/-- The faithful RPC oracle used by the C8 witness. -/
def c8Rpc : Nat → RpcReply :=
  fun k => RpcReply.okReply { number := some k }

/-- Witness for C8 on the S4-style range 1000..1010 with batch width 4. -/
theorem fetch_range_spec_witness :
    ((1 : Nat) ≤ 4 ∧ (1000 : Nat) ≤ 1010) ∧
    (∀ k, (1000 ≤ k ∧ k ≤ 1010) ↔
      ∃ t ∈ create_batch_ranges 4 1000 1010, t.2.1 ≤ k ∧ k ≤ t.2.2) ∧
    (∀ k, 1000 ≤ k → k ≤ 1010 →
      (∃ mb ∈ (fetch_blocks_range c8Rpc 4 1000 1010).1, mb.number = k) ∨
      k ∈ (fetch_blocks_range c8Rpc 4 1000 1010).2) :=
  ⟨⟨by decide, by decide⟩,
   (fetch_range_spec c8Rpc 4 1000 1010 (by decide) (by decide)
     (fun k eb h => by cases h; rfl)).2.2.2.2.1,
   (fetch_range_spec c8Rpc 4 1000 1010 (by decide) (by decide)
     (fun k eb h => by cases h; rfl)).2.2.2.2.2⟩

end ShredExplorer
